import Mathlib

/-!
Verification of `matknife` (src/src/main.rs): a CLI that splits a combined
metallic+smoothness texture into separate metallic and roughness images, and
merges them back.

The embedding models the decoded images as pixel grids in the two channel
layouts the program works with: `Luma` (one 8-bit channel) and `LumaAlpha`
(luminance plus alpha).  Channel values are `Nat`; the decoder only ever
produces values `≤ 255`, which theorems carry as hypotheses where the
arithmetic depends on it (`0xff - v` on `u8` never underflows since `v ≤ 255`,
so truncated `Nat` subtraction agrees with the `u8` subtraction the code
performs).

`DynamicImage::get_pixel` returns the `Rgba<u8>` view of the stored pixel —
a `Luma` pixel becomes `(l, l, l, 255)` with a synthesized opaque alpha, a
`LumaAlpha` pixel becomes `(l, l, l, a)` — and `DynamicImage::put_pixel`
converts an `Rgba<u8>` pixel back to the image's layout (`to_luma` /
`to_luma_alpha`, weighting the colour channels by the rec.709 coefficients).
The crate's `Pixel::map f` applies `f` to every channel of that view in
order, alpha included; `Pixel::map_with_alpha f g` applies `f` to the three
colour channels and `g` to the alpha channel.  The source's closures mutate
surrounding locals (`value`, `output_pixel`), so the embedding threads that
state explicitly.  Split's loop body (identity on the colour channels, alpha
read by the closure and replaced by `0xff`) commutes with the view
conversion — the integer weighting sends `(l, l, l)` back to exactly `l` —
so split is modelled directly at the decoded layout; merge's body does not
commute with it (its `map` ends on the view's alpha channel, which is the
synthesized 255 for a greyscale pixel), so merge is modelled through the
`Rgba` view explicitly.

The nested `for y { for x { ... } }` loops read and write only the pixel at
the current `(x, y)` (the read of `get_pixel` at a position always precedes
the `put_pixel` at that same position, and the mutable locals are re-created
in each iteration), so the loops are exactly a pointwise map over the
row-major pixel data, which is how the grid-level transforms are defined.
-/

/-- Channel layout of a decoded image: greyscale, or greyscale with alpha
(`image.color().has_alpha()` distinguishes them in the source). -/
inductive ColorLayout where
  | luma
  | lumaAlpha
deriving DecidableEq, Repr

/-- Mirror of `image.color().has_alpha()` (main.rs line 29). -/
def ColorLayout.has_alpha : ColorLayout → Bool
  | .luma => false
  | .lumaAlpha => true

/-- A pixel in one of the two layouts the program handles: `Luma<u8>` with a
single luminance channel, or luminance plus alpha. -/
inductive Pixel where
  | luma (l : Nat)
  | lumaAlpha (l a : Nat)
deriving DecidableEq, Repr

/-- The layout a pixel is stored at.  A decoded image's pixels all have the
layout the image reports, so dispatching on a pixel's own layout is the
dispatch `DynamicImage` performs on its variant. -/
def Pixel.layout : Pixel → ColorLayout
  | .luma _ => .luma
  | .lumaAlpha _ _ => .lumaAlpha

/-- State-threading form of `map_with_alpha` for a closure `g` that also
updates a captured mutable local (of type `σ`): returns the final state and
the mapped pixel.  Used by `split`, whose alpha closure writes
`output_pixel`. -/
def Pixel.map_with_alpha_st {σ : Type} (f : Nat → Nat) (g : σ → Nat → σ × Nat)
    (s : σ) : Pixel → σ × Pixel
  | .luma l => (s, .luma (f l))
  | .lumaAlpha l a =>
    let r := g s a
    (r.1, .lumaAlpha (f l) r.2)

/-- The four-channel `Rgba<u8>` pixel `DynamicImage`'s pixel accessors work
with. -/
structure Rgba where
  r : Nat
  g : Nat
  b : Nat
  a : Nat
deriving DecidableEq, Repr

/-- The `Rgba<u8>` view `DynamicImage::get_pixel` returns: a `Luma` pixel is
converted to `(l, l, l, 255)` with a synthesized opaque alpha, a `LumaAlpha`
pixel to `(l, l, l, a)`. -/
def Pixel.to_rgba : Pixel → Rgba
  | .luma l => ⟨l, l, l, 255⟩
  | .lumaAlpha l a => ⟨l, l, l, a⟩

/-- State-threading form of the crate's `Pixel::map` on `Rgba<u8>`: the
closure is applied to the channels in order r, g, b, a — alpha included —
returning the final state of the captured local and the mapped pixel.  Used
by `merge`, whose closure stores each channel into `value`, so the final
state is the last channel visited: the view's alpha. -/
def Rgba.map_st {σ : Type} (f : σ → Nat → σ × Nat) (s : σ) (p : Rgba) : σ × Rgba :=
  let r1 := f s p.r
  let r2 := f r1.1 p.g
  let r3 := f r2.1 p.b
  let r4 := f r3.1 p.a
  (r4.1, ⟨r1.2, r2.2, r3.2, r4.2⟩)

/-- The crate's `Pixel::map_with_alpha(f, g)` on `Rgba<u8>`: `f` on the three
colour channels, `g` on the alpha channel. -/
def Rgba.map_with_alpha (f g : Nat → Nat) (p : Rgba) : Rgba :=
  ⟨f p.r, f p.g, f p.b, g p.a⟩

/-- The rec.709 rgb-to-luma weighting the crate uses when converting colour
channels to greyscale; `(l, l, l)` maps back to exactly `l` since the
weights sum to 10000, and `(0, 0, 0)` maps to 0 under every crate version's
variant of the formula. -/
def rgb_to_luma (p : Rgba) : Nat := (2126 * p.r + 7152 * p.g + 722 * p.b) / 10000

/-- The conversion `DynamicImage::put_pixel` applies to the `Rgba<u8>` pixel
it is handed before storing it at the image's layout: `to_luma` weights the
colour channels and drops the alpha, `to_luma_alpha` keeps the alpha. -/
def Rgba.put_at (layout : ColorLayout) (p : Rgba) : Pixel :=
  match layout with
  | .luma => .luma (rgb_to_luma p)
  | .lumaAlpha => .lumaAlpha (rgb_to_luma p) p.a

/-- A decoded image: channel layout, dimensions, and the row-major pixel
data (`data.get? (y * width + x)` is the pixel at `(x, y)`). -/
structure PixelGrid where
  color : ColorLayout
  width : Nat
  height : Nat
  data : List Pixel
deriving DecidableEq, Repr

/-- Mirror of `image.dimensions()`. -/
def PixelGrid.dimensions (g : PixelGrid) : Nat × Nat := (g.width, g.height)

/-- The pixel at `(x, y)` of a grid, `none` when out of range; mirrors
`image.get_pixel(x, y)` on the row-major buffer. -/
def PixelGrid.get_pixel? (g : PixelGrid) (x y : Nat) : Option Pixel :=
  g.data[y * g.width + x]?

/-- The one transform-level failure of `split`: the
"Input image does not have an alpha channel!" bail at main.rs lines 29-31. -/
inductive SplitError where
  | missingAlphaChannel
deriving DecidableEq, Repr

/-- Body of split's inner loop (main.rs lines 43-54) for one pixel:
`output_pixel` starts as `Luma(0x00)`; `map_with_alpha` keeps each colour
channel (`|channel| channel`) and replaces alpha by `0xff`, with the alpha
closure recording `Luma(0xff - alpha)` into `output_pixel`.  Returns the
pixel written back into the input image (metallic) and the pixel written
into `alpha_image` (roughness). -/
def split_pixel (input_pixel : Pixel) : Pixel × Pixel :=
  let output_pixel : Pixel := .luma 0x00
  let r := input_pixel.map_with_alpha_st (fun channel => channel)
    (fun _out alpha => (Pixel.luma (0xff - alpha), 0xff)) output_pixel
  (r.2, r.1)

/-- The split transform (main.rs lines 22-81, transform part): bail with
`missingAlphaChannel` when the input layout has no alpha channel, otherwise
produce the mutated input image (metallic: same layout and dimensions, data
mapped by the loop body) and the fresh `alpha_image` (roughness: `Luma`
layout, same dimensions). -/
def split (image : PixelGrid) : Except SplitError (PixelGrid × PixelGrid) :=
  if !image.color.has_alpha then
    .error .missingAlphaChannel
  else
    .ok ({ image with data := image.data.map (fun p => (split_pixel p).1) },
      { color := .luma, width := image.width, height := image.height,
        data := image.data.map (fun p => (split_pixel p).2) })

/-- The one transform-level failure of `merge`: the
"Input images are not the same size!" bail at main.rs lines 113-115. -/
inductive MergeError where
  | dimensionMismatch
deriving DecidableEq, Repr

/-- Body of merge's inner loop (main.rs lines 121-134) for one pixel pair:
`value` starts at `0x00`; `Pixel::map` runs over the `Rgba<u8>` view of the
roughness pixel (the mapped pixel itself is discarded), storing each of the
four channels into `value` in turn, so `value` ends as the view's alpha —
the synthesized 255 for a `Luma` roughness pixel, the decoded alpha for a
`LumaAlpha` one.  `map_with_alpha` on the view of the metallic pixel then
maps every colour channel to `0x00` and the alpha to `0xff - value`, and
`put_pixel` converts the result `(0, 0, 0, 0xff - value)` back to the
metallic image's layout, which is the layout of its pixels. -/
def merge_pixel (metallic_pixel roughness_pixel : Pixel) : Pixel :=
  let value : Nat := 0x00
  let value := (roughness_pixel.to_rgba.map_st (fun _v channel => (channel, channel)) value).1
  let new_pixel := metallic_pixel.to_rgba.map_with_alpha (fun _channel => 0x00)
    (fun _alpha => 0xff - value)
  new_pixel.put_at metallic_pixel.layout

/-- The merge transform (main.rs lines 102-160, transform part): bail with
`dimensionMismatch` when the two inputs differ in `(width, height)` — before
any per-pixel work — otherwise produce the mutated metallic image (its layout
and dimensions, data combined pointwise with the roughness data by the loop
body). -/
def merge (metallic_image roughness_image : PixelGrid) : Except MergeError PixelGrid :=
  if metallic_image.dimensions ≠ roughness_image.dimensions then
    .error .dimensionMismatch
  else
    .ok { metallic_image with
      data := List.zipWith merge_pixel metallic_image.data roughness_image.data }

/-- Mirror of Rust's `str::strip_suffix`: `some` of the string with one copy
of the suffix removed when it ends with it, else `none`.  Strings are
modelled as lists of characters. -/
def strip_suffix (s suffix : List Char) : Option (List Char) :=
  if suffix.isSuffixOf s then some (s.take (s.length - suffix.length)) else none

/-- The literal suffix split strips from the input stem (main.rs line 60). -/
def metallicSmoothnessSuffix : List Char := "MetallicSmoothness".toList

/-- Mirror of main.rs lines 58-62: the stem with a trailing
`"MetallicSmoothness"` stripped when present, else the full stem. -/
def split_file_stem_base (file_stem : List Char) : List Char :=
  match strip_suffix file_stem metallicSmoothnessSuffix with
  | some basename => basename
  | none => file_stem

/-- A file path as the program manipulates it: the directory part and the
final file-name component. -/
structure TexturePath where
  dir : List Char
  file_name : List Char
deriving DecidableEq, Repr

/-- Mirror of `PathBuf::with_file_name`: replace the final component, keep
the directory. -/
def TexturePath.with_file_name (p : TexturePath) (name : List Char) : TexturePath :=
  { p with file_name := name }

/-- Mirror of main.rs lines 58-77, path part: given the input path and its
stem, the metallic and roughness output paths,
`base ++ "Metallic.png"` and `base ++ "Roughness.png"` alongside the input. -/
def split_output_paths (input : TexturePath) (file_stem : List Char) :
    TexturePath × TexturePath :=
  let filename := split_file_stem_base file_stem
  (input.with_file_name (filename ++ "Metallic.png".toList),
   input.with_file_name (filename ++ "Roughness.png".toList))

/-- The file-name part of split's metallic output (main.rs line 68). -/
def metallicPngName : List Char := "Metallic.png".toList

/-- The file-name part of split's roughness output (main.rs line 75). -/
def roughnessPngName : List Char := "Roughness.png".toList

/-! ### Helper lemmas -/

/-- Indexing a `zipWith` where both inputs are defined at the index. -/
theorem zipWith_getElem?_some {α β γ : Type} (f : α → β → γ) (as : List α) (bs : List β) :
    ∀ (i : Nat) (a : α) (b : β), as[i]? = some a → bs[i]? = some b →
      (List.zipWith f as bs)[i]? = some (f a b) := by
  induction as generalizing bs with
  | nil => intro i a b ha _; simp at ha
  | cons a' as ih =>
    intro i a b ha hb
    cases bs with
    | nil => simp at hb
    | cons b' bs =>
      cases i with
      | zero => simp_all
      | succ i =>
        simpa using ih bs i a b (by simpa using ha) (by simpa using hb)

/-- On an input whose layout has an alpha channel, split reaches the pixel
loop and returns the mutated input image and the fresh roughness image. -/
theorem split_eq_ok (g : PixelGrid) (hga : g.color.has_alpha = true) :
    split g = .ok ({ g with data := g.data.map (fun p => (split_pixel p).1) },
      { color := .luma, width := g.width, height := g.height,
        data := g.data.map (fun p => (split_pixel p).2) }) := by
  simp [split, hga]

/-- On inputs of equal dimensions, merge reaches the pixel loop and returns
the mutated metallic image. -/
theorem merge_eq_ok (m r : PixelGrid) (h : m.dimensions = r.dimensions) :
    merge m r = .ok { m with data := List.zipWith merge_pixel m.data r.data } := by
  simp [merge, h]

/-! ### Claim theorems -/

/-- C4: for every input `CombinedTexture` with an alpha channel and every
pixel `(x, y)` with luminance `l` and alpha `a`, split's roughness output at
`(x, y)` is `Luma (255 - a)` (so alpha 0 maps to 255, alpha 255 to 0, and
alpha 128 to 127). -/
theorem split_roughness_complement (g : PixelGrid) (x y l a : Nat)
    (hga : g.color.has_alpha = true) (ha : a ≤ 255)
    (hp : g.get_pixel? x y = some (.lumaAlpha l a)) :
    ∃ met rough, split g = .ok (met, rough) ∧
      rough.get_pixel? x y = some (.luma (255 - a)) := by
  refine ⟨_, _, split_eq_ok g hga, ?_⟩
  unfold PixelGrid.get_pixel? at hp ⊢
  simp [List.getElem?_map, hp, split_pixel, Pixel.map_with_alpha_st]

/-- C4 witness: on a 3×1 combined texture with alphas 0, 255 and 128, the
roughness output pixels are 255, 0 and 127. -/
theorem split_roughness_complement_witness :
    (∃ met rough,
        split ⟨.lumaAlpha, 3, 1, [.lumaAlpha 0 0, .lumaAlpha 0 255, .lumaAlpha 0 128]⟩
          = .ok (met, rough) ∧ rough.get_pixel? 0 0 = some (.luma 255)) ∧
    (∃ met rough,
        split ⟨.lumaAlpha, 3, 1, [.lumaAlpha 0 0, .lumaAlpha 0 255, .lumaAlpha 0 128]⟩
          = .ok (met, rough) ∧ rough.get_pixel? 1 0 = some (.luma 0)) ∧
    (∃ met rough,
        split ⟨.lumaAlpha, 3, 1, [.lumaAlpha 0 0, .lumaAlpha 0 255, .lumaAlpha 0 128]⟩
          = .ok (met, rough) ∧ rough.get_pixel? 2 0 = some (.luma 127)) :=
  ⟨split_roughness_complement _ 0 0 0 0 rfl (by decide) rfl,
   split_roughness_complement _ 1 0 0 255 rfl (by decide) rfl,
   split_roughness_complement _ 2 0 0 128 rfl (by decide) rfl⟩

/-- C5: for every input `CombinedTexture` with an alpha channel and every
pixel `(x, y)` with luminance `l` and alpha `a`, split's metallic output at
`(x, y)` keeps luminance `l` unchanged and has alpha 255. -/
theorem split_metallic_preserved (g : PixelGrid) (x y l a : Nat)
    (hga : g.color.has_alpha = true)
    (hp : g.get_pixel? x y = some (.lumaAlpha l a)) :
    ∃ met rough, split g = .ok (met, rough) ∧
      met.get_pixel? x y = some (.lumaAlpha l 255) := by
  refine ⟨_, _, split_eq_ok g hga, ?_⟩
  unfold PixelGrid.get_pixel? at hp ⊢
  simp [List.getElem?_map, hp, split_pixel, Pixel.map_with_alpha_st]

/-- C5 witness: splitting a 1×1 combined texture with pixel (77, 3) gives a
metallic pixel (77, 255). -/
theorem split_metallic_preserved_witness :
    ∃ met rough, split ⟨.lumaAlpha, 1, 1, [.lumaAlpha 77 3]⟩ = .ok (met, rough) ∧
      met.get_pixel? 0 0 = some (.lumaAlpha 77 255) :=
  split_metallic_preserved _ 0 0 77 3 rfl rfl

/-- C6: split fails exactly on inputs whose layout has no alpha channel, and
then with `missingAlphaChannel` — the only transform-level failure mode (the
error type has no other value) — producing no output pair, since the check
precedes the pixel loop and both outputs. -/
theorem split_missing_alpha_iff (g : PixelGrid) :
    split g = .error .missingAlphaChannel ↔ g.color.has_alpha = false := by
  constructor
  · intro h
    by_contra hc
    have hga : g.color.has_alpha = true := by
      cases hb : g.color.has_alpha
      · exact absurd hb hc
      · rfl
    rw [split_eq_ok g hga] at h
    exact Except.noConfusion h
  · intro h
    simp [split, h]

/-- C6 witness: splitting a 1×1 greyscale image with no alpha channel fails
with `missingAlphaChannel`. -/
theorem split_missing_alpha_witness :
    split ⟨.luma, 1, 1, [.luma 9]⟩ = .error .missingAlphaChannel :=
  (split_missing_alpha_iff _).mpr rfl

/-- C7: merge on two inputs whose `(width, height)` dimensions differ fails
with `dimensionMismatch` and produces no output grid; the check precedes any
per-pixel work. -/
theorem merge_dimension_mismatch (m r : PixelGrid)
    (h : m.dimensions ≠ r.dimensions) :
    merge m r = .error .dimensionMismatch := by
  simp [merge, h]

/-- C7 witness: merging a 4×4 image with a 4×5 image fails with
`dimensionMismatch`. -/
theorem merge_dimension_mismatch_witness :
    merge ⟨.luma, 4, 4, List.replicate 16 (.luma 0)⟩
        ⟨.luma, 4, 5, List.replicate 20 (.luma 0)⟩
      = .error .dimensionMismatch :=
  merge_dimension_mismatch _ _ (by decide)

/-- C3 at a failing input: merging metallic (7, 255) with the single-channel
Luma roughness pixel 55 yields alpha 0, not 200 = 255 - 55.  The roughness
pixel reaches `Pixel::map` as its `Rgba<u8>` view `(55, 55, 55, 255)` whose
last channel is the synthesized opaque alpha, so `value` ends as 255 and the
written alpha is `255 - 255 = 0` — for every greyscale roughness input,
contradicting the complement law the Roughness input's own doc comment
("white means perfectly rough, black means perfectly smooth") encodes. -/
theorem merge_alpha_constant_zero_eval :
    merge ⟨.lumaAlpha, 1, 1, [.lumaAlpha 7 255]⟩ ⟨.luma, 1, 1, [.luma 55]⟩
        = .ok ⟨.lumaAlpha, 1, 1, [.lumaAlpha 0 0]⟩ ∧ (0 : Nat) ≠ 255 - 55 :=
  ⟨rfl, by decide⟩

/-- C10: the value merge subtracts from 255 is the last channel `map` visits
on the roughness pixel; when the roughness pixel carries an alpha channel
`ra`, the merged output's alpha is `255 - ra` — independent of the roughness
luminance `rl` — for any metallic pixel that carries an alpha channel. -/
theorem merge_alpha_uses_last_channel (m r : PixelGrid) (x y ml ma rl ra : Nat)
    (hdim : m.dimensions = r.dimensions) (hra : ra ≤ 255)
    (hm : m.get_pixel? x y = some (.lumaAlpha ml ma))
    (hr : r.get_pixel? x y = some (.lumaAlpha rl ra)) :
    ∃ out, merge m r = .ok out ∧
      out.get_pixel? x y = some (.lumaAlpha 0 (255 - ra)) := by
  refine ⟨_, merge_eq_ok m r hdim, ?_⟩
  unfold PixelGrid.get_pixel? at hm hr ⊢
  have hwidth : m.dimensions.1 = r.dimensions.1 := by rw [hdim]
  simp only [PixelGrid.dimensions] at hwidth
  rw [hwidth] at hm
  have := zipWith_getElem?_some merge_pixel m.data r.data (y * r.width + x) _ _ hm hr
  simpa [hwidth, merge_pixel, Pixel.to_rgba, Rgba.map_st, Rgba.map_with_alpha,
    Pixel.layout, Rgba.put_at, rgb_to_luma] using this

/-- C10 witness: merging metallic (5, 6) with LumaAlpha roughness (10, 100)
gives alpha 155 = 255 - 100, not 245 = 255 - 10. -/
theorem merge_alpha_uses_last_channel_witness :
    ∃ out, merge ⟨.lumaAlpha, 1, 1, [.lumaAlpha 5 6]⟩ ⟨.lumaAlpha, 1, 1, [.lumaAlpha 10 100]⟩
        = .ok out ∧ out.get_pixel? 0 0 = some (.lumaAlpha 0 155) :=
  merge_alpha_uses_last_channel _ _ 0 0 5 6 10 100 rfl (by decide) rfl rfl

/-- C2 at a failing input: merging a metallic pixel of luminance 42 (alpha
255) with Luma roughness 99 yields luminance 0, not 42 — the loop maps every
colour channel of the metallic pixel's `Rgba<u8>` view to 0x00 (main.rs line
132) instead of copying it, and `put_pixel` stores their zero luma. -/
theorem merge_luminance_zeroed_eval :
    merge ⟨.lumaAlpha, 1, 1, [.lumaAlpha 42 255]⟩ ⟨.luma, 1, 1, [.luma 99]⟩
        = .ok ⟨.lumaAlpha, 1, 1, [.lumaAlpha 0 0]⟩ ∧ (0 : Nat) ≠ 42 :=
  ⟨rfl, by decide⟩

/-- C1 at a failing input: splitting the 1×1 combined texture (10, 200) gives
metallic (10, 255) and Luma roughness 55, but merging those back gives
(0, 0), not (10, 200): merge zeroes every colour channel, and the greyscale
roughness pixel reaches `Pixel::map` as `(55, 55, 55, 255)` whose last
channel is the synthesized alpha 255, so the written alpha is
`255 - 255 = 0` — both the luminance and the alpha are destroyed. -/
theorem merge_split_round_trip_eval :
    split ⟨.lumaAlpha, 1, 1, [.lumaAlpha 10 200]⟩
        = .ok (⟨.lumaAlpha, 1, 1, [.lumaAlpha 10 255]⟩, ⟨.luma, 1, 1, [.luma 55]⟩) ∧
    merge ⟨.lumaAlpha, 1, 1, [.lumaAlpha 10 255]⟩ ⟨.luma, 1, 1, [.luma 55]⟩
        = .ok ⟨.lumaAlpha, 1, 1, [.lumaAlpha 0 0]⟩ ∧
    ((0 : Nat) ≠ 10 ∧ (0 : Nat) ≠ 200) :=
  ⟨rfl, rfl, by decide, by decide⟩

/-- C8 counterexample: the outputs are not both Luma-layout.  Splitting a 1×1
LumaAlpha input succeeds with a metallic output that keeps the LumaAlpha
layout (only the roughness output is Luma). -/
theorem split_output_layout_cex :
    (split ⟨.lumaAlpha, 1, 1, [.lumaAlpha 3 4]⟩).map (fun pr => (pr.1.color, pr.2.color))
        = .ok (ColorLayout.lumaAlpha, ColorLayout.luma) ∧
    ColorLayout.lumaAlpha ≠ ColorLayout.luma :=
  ⟨rfl, by decide⟩

/-- C8 (amended): for every input with an alpha channel, split produces
exactly two output grids — the metallic one keeping the input's layout and
the roughness one in Luma layout — both with the input's width and height. -/
theorem split_output_shapes (g : PixelGrid) (hga : g.color.has_alpha = true) :
    ∃ met rough, split g = .ok (met, rough) ∧
      met.color = g.color ∧ met.width = g.width ∧ met.height = g.height ∧
      rough.color = .luma ∧ rough.width = g.width ∧ rough.height = g.height :=
  ⟨_, _, split_eq_ok g hga, rfl, rfl, rfl, rfl, rfl, rfl⟩

/-- C8 witness: splitting a 2×1 LumaAlpha input gives outputs of width 2 and
height 1, the metallic one LumaAlpha and the roughness one Luma. -/
theorem split_output_shapes_witness :
    ∃ met rough, split ⟨.lumaAlpha, 2, 1, [.lumaAlpha 1 2, .lumaAlpha 3 4]⟩
        = .ok (met, rough) ∧
      met.color = ColorLayout.lumaAlpha ∧ met.width = 2 ∧ met.height = 1 ∧
      rough.color = ColorLayout.luma ∧ rough.width = 2 ∧ rough.height = 1 :=
  split_output_shapes _ rfl

/-- C9: for every input path and stem, both outputs stay in the input's
directory; when the stem is `base ++ "MetallicSmoothness"` the suffix is
stripped once (exactly, case-sensitively, at the end) and the outputs are
named `base ++ "Metallic.png"` and `base ++ "Roughness.png"`; when the stem
does not end with the suffix, the full stem is the base. -/
theorem split_filename_derivation (input : TexturePath) (file_stem base : List Char) :
    ((split_output_paths input file_stem).1.dir = input.dir ∧
     (split_output_paths input file_stem).2.dir = input.dir) ∧
    (file_stem = base ++ metallicSmoothnessSuffix →
      split_output_paths input file_stem =
        (⟨input.dir, base ++ metallicPngName⟩, ⟨input.dir, base ++ roughnessPngName⟩)) ∧
    (metallicSmoothnessSuffix.isSuffixOf file_stem = false →
      split_output_paths input file_stem =
        (⟨input.dir, file_stem ++ metallicPngName⟩,
         ⟨input.dir, file_stem ++ roughnessPngName⟩)) := by
  refine ⟨⟨rfl, rfl⟩, ?_, ?_⟩
  · intro h
    subst h
    have hsuf : metallicSmoothnessSuffix.isSuffixOf (base ++ metallicSmoothnessSuffix) = true := by
      rw [List.isSuffixOf_iff_suffix]
      exact List.suffix_append _ _
    have hlen : (base ++ metallicSmoothnessSuffix).length - metallicSmoothnessSuffix.length
        = base.length := by
      simp [List.length_append]
    have hbase : split_file_stem_base (base ++ metallicSmoothnessSuffix) = base := by
      simp [split_file_stem_base, strip_suffix, hsuf, hlen, List.take_left]
    simp [split_output_paths, hbase, TexturePath.with_file_name,
      metallicPngName, roughnessPngName]
  · intro h
    have hbase : split_file_stem_base file_stem = file_stem := by
      simp [split_file_stem_base, strip_suffix, h]
    simp [split_output_paths, hbase, TexturePath.with_file_name,
      metallicPngName, roughnessPngName]

/-- C9 witness: stem "WoodMetallicSmoothness" gives "WoodMetallic.png" and
"WoodRoughness.png"; stem "Wood" (no matching suffix) gives the same names;
both in the input's directory. -/
theorem split_filename_derivation_witness :
    split_output_paths ⟨"/tex".toList, "WoodMetallicSmoothness.png".toList⟩
        "WoodMetallicSmoothness".toList
      = (⟨"/tex".toList, "WoodMetallic.png".toList⟩,
         ⟨"/tex".toList, "WoodRoughness.png".toList⟩) ∧
    split_output_paths ⟨"/tex".toList, "Wood.png".toList⟩ "Wood".toList
      = (⟨"/tex".toList, "WoodMetallic.png".toList⟩,
         ⟨"/tex".toList, "WoodRoughness.png".toList⟩) := by
  constructor
  · exact ((split_filename_derivation ⟨"/tex".toList, "WoodMetallicSmoothness.png".toList⟩
      "WoodMetallicSmoothness".toList "Wood".toList).2.1 (by decide)).trans (by decide)
  · exact ((split_filename_derivation ⟨"/tex".toList, "Wood.png".toList⟩
      "Wood".toList "Wood".toList).2.2 (by decide)).trans (by decide)
